import Mathlib

/-!
Verification of the Amharic dataset pipeline (collector / scorer / enhancer /
batch server) against its natural-language specification.

The Python source is shallowly embedded: strings are `String` (lists of
unicode `Char`), Python floats are modelled as exact rationals `ℚ`, and each
Python function becomes an executable Lean definition translated line by line
from the source.  Notable low-level points of the source that the embedding
reproduces faithfully:

* `scorer.py` line 59 uses the raw-string regex `r'[\\u1200-\\u137F]'`.
  Inside a raw string the doubled backslashes are literal, so the character
  class parses as `\`, `u`, `1`, `2`, `0`, the range `0`-`\`, `u`, `1`, `3`,
  `7`, `F`, i.e. codepoints `0x30`-`0x5C` together with `u` — not the
  Ethiopic block.  `buggyClassChar` below is exactly that set.
* `scorer.py` line 60 computes `text.replace(' ', '').replace('\\n', '')`
  in a normal (non-raw) string, so it deletes the two-character substring
  backslash-`n`, not newline characters.  `dropBsnPairs` models this.
* `scorer.py` line 91 tests `re.search(r'[።!?]$', s + ' ')`: with no
  MULTILINE flag, `$` matches at the end of the string or just before a
  trailing newline.  `endsTermDollar` models `$` exactly that way.
* `collector.py` lines 74-75 use the correct single-backslash Ethiopic
  regex and strip real newlines.

Python `round(x, 3)` is modelled as exact round-half-to-even on rationals
(`roundHalfEven3`); binary floating point representation error is out of
scope of this development.
-/

namespace AmharicDataset

attribute [local semireducible] Rat.add Rat.mul Rat.inv Rat.sub Rat.ofScientific

set_option maxRecDepth 100000

/-- Characters accepted by Python `str.isspace` / `re` `\s` / `str.strip()`
(the Unicode whitespace set used by CPython for `str`). -/
def pySpaceChar (c : Char) : Bool :=
  let n := c.toNat
  n == 0x20 || (0x09 ≤ n && n ≤ 0x0D) || (0x1C ≤ n && n ≤ 0x1F) ||
  n == 0x85 || n == 0xA0 || n == 0x1680 || (0x2000 ≤ n && n ≤ 0x200A) ||
  n == 0x2028 || n == 0x2029 || n == 0x202F || n == 0x205F || n == 0x3000

/-- Ethiopic Unicode block U+1200..U+137F (the collector's correct regex). -/
def isEthiopicChar (c : Char) : Bool :=
  0x1200 ≤ c.toNat && c.toNat ≤ 0x137F

/-- The character class actually denoted by the scorer's raw-string regex
`r'[\\u1200-\\u137F]'`: literal `\`, `u`, digits `1 2 0 3 7`, `F`, plus the
range `0`-`\` (codepoints 0x30-0x5C); the union is 0x30-0x5C together
with `u`. -/
def buggyClassChar (c : Char) : Bool :=
  (0x30 ≤ c.toNat && c.toNat ≤ 0x5C) || c == 'u'

/-- Sentence terminators used by the scorer and enhancer: `።`, `!`, `?`. -/
def isTerminatorChar (c : Char) : Bool :=
  c == '።' || c == '!' || c == '?'

/-- ASCII alphanumeric, the class `[a-zA-Z0-9]` of the entity regex. -/
def asciiAlnumChar (c : Char) : Bool :=
  ('a' ≤ c && c ≤ 'z') || ('A' ≤ c && c ≤ 'Z') || ('0' ≤ c && c ≤ '9')

/-- Characters kept by the collector's cleaning filter
`[^ሀ-፿ -\u007F -ÿ]`. -/
def keepCharCollector (c : Char) : Bool :=
  isEthiopicChar c || (0x20 ≤ c.toNat && c.toNat ≤ 0x7F) ||
  (0xA0 ≤ c.toNat && c.toNat ≤ 0xFF)

/-- Word characters for Python `re` `\b`, restricted to the alphabets this
repository manipulates: ASCII alphanumerics, underscore, and Ethiopic
syllables (U+1200..U+135A; the Ethiopic punctuation and digits at
U+1361..U+137C are not word characters). -/
def isWordChar (c : Char) : Bool :=
  asciiAlnumChar c || c == '_' || (0x1200 ≤ c.toNat && c.toNat ≤ 0x135A)

/-- Python `str.strip()` on a character list. -/
def pyStripL (l : List Char) : List Char :=
  ((l.dropWhile pySpaceChar).reverse.dropWhile pySpaceChar).reverse

/-- Embeds `text.replace('\\n', '')` of `scorer.py` line 60: delete every
(left-to-right, non-overlapping) occurrence of the two-character substring
backslash-`n`. -/
def dropBsnPairs : List Char → List Char
  | [] => []
  | '\\' :: 'n' :: rest => dropBsnPairs rest
  | c :: rest => c :: dropBsnPairs rest

/-- Does `hay` start with `needle`? -/
def startsWithL : List Char → List Char → Bool
  | [], _ => true
  | _ :: _, [] => false
  | n :: ns, h :: hs => n == h && startsWithL ns hs

/-- Python substring containment `needle in hay`. -/
def containsSub (needle : List Char) : List Char → Bool
  | [] => startsWithL needle []
  | l@(_ :: rest) => startsWithL needle l || containsSub needle rest

/-- Python `hay.count(needle)` for a nonempty needle: number of
non-overlapping occurrences, scanning left to right.  The `Nat` argument is
recursion fuel (structural recursion so that the kernel can evaluate it);
with fuel `hay.length` it never runs out, since every step consumes at least
one character. -/
def countOccurGo (n0 : Char) (ns : List Char) : Nat → List Char → Nat
  | _, [] => 0
  | 0, _ => 0
  | fuel + 1, c :: rest =>
    if startsWithL (n0 :: ns) (c :: rest) then
      1 + countOccurGo n0 ns fuel (rest.drop ns.length)
    else countOccurGo n0 ns fuel rest

def countOccurSub (n0 : Char) (ns l : List Char) : Nat :=
  countOccurGo n0 ns l.length l

/-- Python `hay.replace(old, new)` for a nonempty `old`: replace every
non-overlapping occurrence, scanning left to right (fuelled like
`countOccurGo`). -/
def replaceAllGo (n0 : Char) (ns news : List Char) : Nat → List Char → List Char
  | _, [] => []
  | 0, l => l
  | fuel + 1, c :: rest =>
    if startsWithL (n0 :: ns) (c :: rest) then
      news ++ replaceAllGo n0 ns news fuel (rest.drop ns.length)
    else c :: replaceAllGo n0 ns news fuel rest

def replaceAllSub (n0 : Char) (ns news l : List Char) : List Char :=
  replaceAllGo n0 ns news l.length l

/-- Embeds `re.search(r'[።!?]$', s)` as a Boolean: without MULTILINE, `$` matches
at the very end of the string or just before one trailing newline. -/
def endsTermDollar (l : List Char) : Bool :=
  match l.getLast? with
  | none => false
  | some c =>
    if isTerminatorChar c then true
    else if c == '\n' then
      match l.dropLast.getLast? with
      | some c2 => isTerminatorChar c2
      | none => false
    else false

/-- Embeds `re.split(r'[።!?]+', text)` up to empty segments: split at every single
terminator character.  The source immediately strips each segment and drops
the empty ones, and on that quotient splitting at single terminators and
splitting at terminator runs agree, since a run only contributes extra empty
segments. -/
def splitSingleTerm : List Char → List (List Char)
  | [] => [[]]
  | c :: rest =>
    if isTerminatorChar c then [] :: splitSingleTerm rest
    else
      match splitSingleTerm rest with
      | [] => [[c]]
      | s :: ss => (c :: s) :: ss

/-- Embeds `re.sub(r'\s+', ' ', l)`: replace every maximal whitespace run by one
space.  The Boolean records whether the previous character was whitespace
(i.e. whether we are inside a run that already emitted its space). -/
def collapseGo (prevSpace : Bool) : List Char → List Char
  | [] => []
  | c :: rest =>
    if pySpaceChar c then
      if prevSpace then collapseGo true rest
      else ' ' :: collapseGo true rest
    else c :: collapseGo false rest

/-- Embeds `re.sub(r'&[a-zA-Z0-9]+;', '', l)`: at each `&`, the greedy `+` takes the
maximal ASCII-alphanumeric run; the match succeeds iff that run is nonempty
and is followed by `;` (no shorter backtracked run can be followed by `;`,
being followed by an alphanumeric instead).  Scanning resumes after the `;`
of a match, or at the next character otherwise. -/
def removeEntitiesGo : Nat → List Char → List Char
  | _, [] => []
  | 0, l => l
  | fuel + 1, c :: rest =>
    if c == '&' then
      match rest.dropWhile asciiAlnumChar with
      | ';' :: r2 =>
        if (rest.takeWhile asciiAlnumChar).isEmpty then '&' :: removeEntitiesGo fuel rest
        else removeEntitiesGo fuel r2
      | _ => '&' :: removeEntitiesGo fuel rest
    else c :: removeEntitiesGo fuel rest

/-- Fuelled (structural) scan; with fuel `l.length` the fuel never runs out
because each step consumes at least one character. -/
def removeEntitiesL (l : List Char) : List Char :=
  removeEntitiesGo l.length l

/-- Python `str.split()`: split on whitespace runs, returning no empty
tokens. -/
def pySplitWSGo (cur : List Char) : List Char → List (List Char)
  | [] => if cur.isEmpty then [] else [cur.reverse]
  | c :: rest =>
    if pySpaceChar c then
      if cur.isEmpty then pySplitWSGo [] rest
      else cur.reverse :: pySplitWSGo [] rest
    else pySplitWSGo (c :: cur) rest

def pySplitWSL (l : List Char) : List (List Char) :=
  pySplitWSGo [] l

/-- Substring containment on `String`, Python's `needle in hay`. -/
def containsStr (needle hay : String) : Bool :=
  containsSub needle.data hay.data

/-! ### Scorer: `AmharicQualityScorer` (`tools/scorer.py`) -/

/-- Embeds `AmharicQualityScorer.calculate_amharic_character_ratio`.  Because of the
doubled backslashes in its raw-string regex and in its `replace('\\n', '')`,
the numerator counts characters of `buggyClassChar` and the denominator is
the length after deleting spaces and literal backslash-`n` pairs. -/
def amharicCharacterRatioFn (text : String) : ℚ :=
  if text = "" then 0
  else
    let amharic_chars := (text.data.filter buggyClassChar).length
    let total_chars := (dropBsnPairs (text.data.filter (fun c => c ≠ ' '))).length
    if total_chars = 0 then 0
    else (amharic_chars : ℚ) / (total_chars : ℚ)

/-- The ratio computed inside `AmharicDataCollector.is_amharic_text`
(`collector.py` lines 74-80): Ethiopic-block characters over non-space,
non-newline characters.  `0` stands for the division-guard branch in which
the collector returns `False`. -/
def collectorAmharicRatioFn (text : String) : ℚ :=
  let amharic_chars := (text.data.filter isEthiopicChar).length
  let total_chars := (text.data.filter (fun c => c ≠ ' ' && c ≠ '\n')).length
  if total_chars = 0 then 0
  else (amharic_chars : ℚ) / (total_chars : ℚ)

/-- Embeds `AmharicDataCollector.is_amharic_text`. -/
def is_amharic_text (text : String) : Bool :=
  if (pyStripL text.data).length < 10 then false
  else
    let total_chars := (text.data.filter (fun c => c ≠ ' ' && c ≠ '\n')).length
    if total_chars = 0 then false
    else decide (collectorAmharicRatioFn text > 7/10)

/-- Result dictionary of `evaluate_sentence_structure`; the source stores
the termination ratio under the key `properly_terminated`. -/
structure SentenceStructureResult where
  avg_sentence_length : ℚ
  properly_terminated : ℚ
  structure_score : ℚ
deriving DecidableEq, Repr

/-- Embeds `AmharicQualityScorer.evaluate_sentence_structure`. -/
def evaluate_sentence_structure (text : String) : SentenceStructureResult :=
  let sentences := ((splitSingleTerm text.data).map pyStripL).filter (fun s => !s.isEmpty)
  if sentences.isEmpty then ⟨0, 0, 0⟩
  else
    let n : ℚ := (sentences.length : ℚ)
    let avg_length : ℚ := (((sentences.map List.length).sum : ℕ) : ℚ) / n
    let properly_terminated :=
      (sentences.filter (fun s => endsTermDollar (s ++ [' ']))).length
    let termRatioVal : ℚ := (properly_terminated : ℚ) / n
    let length_score : ℚ :=
      if avg_length < 30 then avg_length / 30
      else if avg_length ≤ 200 then 1
      else max 0 (1 - (avg_length - 200) / 300)
    ⟨avg_length, termRatioVal, length_score * (7/10) + termRatioVal * (3/10)⟩

/-- Embeds `authentic_indicators["religious_expressions"]`. -/
def religious_expressions : List String :=
  ["እግዚአብሔር", "እግዚአብሔር ይመስገን", "እግዚአብሔር ይባርክ"]

/-- Embeds `authentic_indicators["cultural_terms"]`. -/
def cultural_terms : List String :=
  ["እንቁላል", "እንደምን", "አንተስ", "እንዴት", "ጤና", "ደህና"]

/-- Embeds `authentic_indicators["traditional_greetings"]`. -/
def traditional_greetings : List String :=
  ["እንደምን አደርክ", "ጤና ይስጥልኝ"]

/-- Embeds `quality_issues["excessive_foreign_terms"]`. -/
def excessive_foreign_terms : List String :=
  ["ዶክተር", "ዩኒቨርሲቲ", "ኮምፒተር", "ቴሌቪዥን"]

/-- Inner loop of `assess_authenticity`: add `0.1` per expression of the
category contained in the text. -/
def categoryScoreFn (exprs : List String) (text : String) : ℚ :=
  exprs.foldl (fun acc e => acc + if containsStr e text then 1/10 else 0) 0

/-- Foreign-term loop of `assess_authenticity`: `0.05` per foreign term
present (presence, not occurrence count). -/
def foreignPenaltyFn (text : String) : ℚ :=
  excessive_foreign_terms.foldl
    (fun acc t => acc + if containsStr t text then 1/20 else 0) 0

/-- Embeds `AmharicQualityScorer.assess_authenticity`. -/
def assess_authenticity (text : String) : ℚ :=
  let score :=
    categoryScoreFn religious_expressions text +
    categoryScoreFn cultural_terms text +
    categoryScoreFn traditional_greetings text
  let max_score : ℚ :=
    (religious_expressions.length : ℚ) * (1/10) +
    (cultural_terms.length : ℚ) * (1/10) +
    (traditional_greetings.length : ℚ) * (1/10)
  let score2 := max 0 (score - foreignPenaltyFn text)
  let max_score2 := max max_score 1
  if max_score2 > 0 then min 1 (score2 / max_score2) else 0

/-- Result dictionary of `evaluate_complexity`. -/
structure ComplexityResult where
  avg_word_length : ℚ
  complexity_score : ℚ
deriving DecidableEq, Repr

/-- Embeds `AmharicQualityScorer.evaluate_complexity`. -/
def evaluate_complexity (text : String) : ComplexityResult :=
  if text = "" then ⟨0, 0⟩
  else
    let words := ((pySplitWSL text.data).map pyStripL).filter (fun w => !w.isEmpty)
    if words.isEmpty then ⟨0, 0⟩
    else
      let avg_word_length : ℚ := (((words.map List.length).sum : ℕ) : ℚ) / (words.length : ℚ)
      let complexity_score : ℚ :=
        if avg_word_length ≤ 2 then avg_word_length / 2
        else if avg_word_length ≤ 6 then 1
        else max 0 (1 - (avg_word_length - 6) / 10)
      ⟨avg_word_length, complexity_score⟩

/-- Round-half-to-even to an integer, the rounding rule of Python `round`
(modelled on exact rationals). -/
def roundHalfEven (q : ℚ) : ℤ :=
  if q - (⌊q⌋ : ℚ) < 1/2 then ⌊q⌋
  else if q - (⌊q⌋ : ℚ) > 1/2 then ⌊q⌋ + 1
  else if ⌊q⌋ % 2 = 0 then ⌊q⌋ else ⌊q⌋ + 1

/-- Python `round(q, 3)` on exact rationals. -/
def roundHalfEven3 (q : ℚ) : ℚ :=
  ((roundHalfEven (q * 1000) : ℤ) : ℚ) / 1000

/-- The weighted sum computed in `calculate_overall_quality_score` before
rounding: weights 0.3, 0.2, 0.25, 0.15 and a constant coherence of 0.8 with
weight 0.1. -/
def weighted_score (text : String) : ℚ :=
  amharicCharacterRatioFn text * (3/10) +
  (evaluate_sentence_structure text).structure_score * (1/5) +
  assess_authenticity text * (1/4) +
  (evaluate_complexity text).complexity_score * (3/20) +
  (4/5) * (1/10)

/-- The fields of the result of `calculate_overall_quality_score` that the
specification's claims refer to: the rounded overall score, the category and
the five (rounded) component scores. -/
structure QualityResult where
  overall_score : ℚ
  quality_category : String
  amharicRatioComp : ℚ
  sentenceStructureComp : ℚ
  authenticityComp : ℚ
  complexityComp : ℚ
  coherenceComp : ℚ
deriving DecidableEq, Repr

/-- Embeds `AmharicQualityScorer.calculate_overall_quality_score`.  The category is
bucketed from the unrounded weighted score; `overall_score` and the
component scores are rounded to three decimals. -/
def calculate_overall_quality_score (text : String) : QualityResult :=
  let amharic_ratio := amharicCharacterRatioFn text
  let structure_metrics := evaluate_sentence_structure text
  let authenticity_score := assess_authenticity text
  let complexity_metrics := evaluate_complexity text
  let weighted := weighted_score text
  let quality_category :=
    if weighted ≥ 4/5 then "excellent"
    else if weighted ≥ 3/5 then "good"
    else if weighted ≥ 2/5 then "fair"
    else "poor"
  { overall_score := roundHalfEven3 weighted
    quality_category := quality_category
    amharicRatioComp := roundHalfEven3 amharic_ratio
    sentenceStructureComp := roundHalfEven3 structure_metrics.structure_score
    authenticityComp := roundHalfEven3 authenticity_score
    complexityComp := roundHalfEven3 complexity_metrics.complexity_score
    coherenceComp := 4/5 }

/-! ### Collector: `AmharicDataCollector.clean_amharic_text` -/

/-- Embeds `AmharicDataCollector.clean_amharic_text`: strip, collapse whitespace
runs to one space, remove `&name;` entities, keep only Ethiopic / basic
ASCII / Latin-1 supplement characters, strip again. -/
def clean_amharic_text (text : String) : String :=
  if text = "" then ""
  else
    let t1 := collapseGo false (pyStripL text.data)
    let t2 := removeEntitiesL t1
    let t3 := t2.filter keepCharCollector
    ⟨pyStripL t3⟩

/-! ### Enhancer: `AmharicRAGEnhancer` (`tools/enhancer.py`) -/

/-- Embeds `amharic_patterns["common_phrases"]`, in dict insertion order. -/
def common_phrases : List (String × String) :=
  [("እንደምን አደርክ", "እንደምን አደርክ?"),
   ("አንተስ እንዴት ነህ", "አንተስ እንዴት ነህ?"),
   ("እግዚአብሔር ይመስገን", "እግዚአብሔር ይመስገን፣")]

/-- Embeds `amharic_patterns["vowel_omissions"]`. -/
def vowel_omissions : List String :=
  ["እንደምን", "አንተስ", "እንዴት"]

/-- Embeds `authentic_replacements`, in dict insertion order (the last two entries
map a term to itself). -/
def authentic_replacements : List (String × String) :=
  [("ዶክተር", "ሐኪም"),
   ("ሆስፒታል", "መድሃኔ ሕማም"),
   ("ዩኒቨርሲቲ", "ትምህርት ቤት"),
   ("ኮምፒተር", "ኮምፒተር"),
   ("ቴሌቪዥን", "ቴሌቪዥን")]

/-- Embeds `re.sub(r'\b' + re.escape(old) + r'\b', new, hay)` for a nonempty
pattern `n0 :: ns`: replace non-overlapping occurrences scanning left to
right, where `\b` holds at a position iff exactly one of its two
neighbouring characters is a word character (an absent neighbour, at either
end of the string, counts as non-word).  `prev` is the character preceding
the scan position in the original string; after a match the scan resumes
after the matched region, whose last character becomes `prev`.  Fuelled
structurally like `countOccurGo`. -/
def wbReplaceGo (n0 : Char) (ns news : List Char) :
    Option Char → Nat → List Char → List Char
  | _, _, [] => []
  | _, 0, l => l
  | prev, fuel + 1, c :: rest =>
    let boundaryBefore :=
      match prev with
      | none => isWordChar n0
      | some p => isWordChar p != isWordChar n0
    let lastc := (n0 :: ns).getLastD n0
    let afterMatch := rest.drop ns.length
    let boundaryAfter :=
      match afterMatch with
      | [] => isWordChar lastc
      | d :: _ => isWordChar lastc != isWordChar d
    if startsWithL (n0 :: ns) (c :: rest) && boundaryBefore && boundaryAfter then
      news ++ wbReplaceGo n0 ns news (some lastc) fuel afterMatch
    else c :: wbReplaceGo n0 ns news (some c) fuel rest

/-- Word-boundary replacement on `String` (identity for an empty
pattern, a case the source never exercises). -/
def wbReplaceStr (old new text : String) : String :=
  match old.data with
  | [] => text
  | n0 :: ns => ⟨wbReplaceGo n0 ns new.data none text.data.length text.data⟩

/-- Python `text.replace(old, new)` on `String` (identity for an empty
pattern, a case the source never exercises). -/
def pyReplaceStr (old new text : String) : String :=
  match old.data with
  | [] => text
  | n0 :: ns => ⟨replaceAllSub n0 ns new.data text.data⟩

/-- Python `hay.find(needle)`: index of the first occurrence, `-1` when
absent. -/
def pyFindAux (needle : List Char) : List Char → Option Nat
  | [] => if startsWithL needle [] then some 0 else none
  | c :: rest =>
    if startsWithL needle (c :: rest) then some 0
    else (pyFindAux needle rest).map (· + 1)

def pyFind (needle hay : String) : Int :=
  match pyFindAux needle.data hay.data with
  | some n => (n : Int)
  | none => -1

/-- One entry of the `issues` list of `identify_quality_issues`. -/
structure IssueRec where
  itype : String
  description : String
  position : Int
  suggestion : String
deriving DecidableEq, Repr

/-- Embeds `AmharicRAGEnhancer.identify_quality_issues`: a missing-terminal-
punctuation check, then the phrase-completion checks, then the
vowel-omission checks, accumulated in that order. -/
def identify_quality_issues (text : String) : List IssueRec :=
  let punctIssues : List IssueRec :=
    if !endsTermDollar (pyStripL text.data) then
      [⟨"punctuation", "Missing sentence-ending punctuation",
        (text.data.length : Int), "Add appropriate punctuation (።, !, or ?)"⟩]
    else []
  let phraseIssues : List IssueRec :=
    common_phrases.filterMap fun p =>
      if containsStr p.1 text && !containsStr p.2 text then
        some ⟨"phrase_completion", "Incomplete common phrase: " ++ p.1,
              pyFind p.1 text, "Consider using: " ++ p.2⟩
      else none
  let omissionIssues : List IssueRec :=
    vowel_omissions.filterMap fun w =>
      if containsStr w text then
        some ⟨"vowel_omission", "Possible vowel omission: " ++ w,
              pyFind w text, "Verify if vowel is intentionally omitted or missing"⟩
      else none
  punctIssues ++ phraseIssues ++ omissionIssues

/-- Embeds `AmharicRAGEnhancer.apply_authenticity_enhancements`: word-boundary
replacement of each borrowed term, then plain substring replacement of each
incomplete phrase, each table in its insertion order, each replacement
acting on the output of the previous one. -/
def apply_authenticity_enhancements (text : String) : String :=
  let t1 := authentic_replacements.foldl (fun acc p => wbReplaceStr p.1 p.2 acc) text
  common_phrases.foldl (fun acc p => pyReplaceStr p.1 p.2 acc) t1

/-- One entry of `changes_made`. -/
structure ChangeRec where
  ctype : String
  description : String
  original : String
  enhanced : String
deriving DecidableEq, Repr

/-- The fields of the result of `enhance_amharic_text` the claims refer to
(`context_category` is threaded through unchanged by the source and is
omitted). -/
structure EnhanceResult where
  original_text : String
  enhanced_text : String
  changes_made : List ChangeRec
  quality_issues_identified : List IssueRec
  enhancement_score : ℚ
deriving DecidableEq, Repr

/-- Embeds `AmharicRAGEnhancer.enhance_amharic_text`.  Note that the second
(punctuation) change records the original unmodified input as its
`original`, exactly as the source does. -/
def enhance_amharic_text (text : String) : EnhanceResult :=
  let original_text := text
  let issues := identify_quality_issues text
  let enhanced1 := apply_authenticity_enhancements text
  let changes1 : List ChangeRec :=
    if enhanced1 ≠ original_text then
      [⟨"authenticity_enhancement", "Applied authentic Amharic replacements",
        original_text, enhanced1⟩]
    else []
  let stripped := pyStripL enhanced1.data
  let denom : ℚ := if original_text.data.length = 0 then 1 else (original_text.data.length : ℚ)
  if !endsTermDollar stripped && !stripped.isEmpty then
    let enhanced2 : String := ⟨stripped ++ ['።']⟩
    { original_text := original_text
      enhanced_text := enhanced2
      changes_made := changes1 ++
        [⟨"punctuation", "Added sentence-ending punctuation", original_text, enhanced2⟩]
      quality_issues_identified := issues
      enhancement_score := ((changes1.length + 1 : ℕ) : ℚ) / denom }
  else
    { original_text := original_text
      enhanced_text := enhanced1
      changes_made := changes1
      quality_issues_identified := issues
      enhancement_score := ((changes1.length : ℕ) : ℚ) / denom }

/-! ### Batch server: `batch_process_dataset` (`server/main.py`) -/

/-- A batch input/output record, reduced to the fields the pipeline reads
or writes (`text` may be absent; extra payload fields are irrelevant to the
loop's behaviour). -/
structure BatchItem where
  text : Option String := none
  rag_enhanced : Bool := false
  rag_changes : List ChangeRec := []
  quality_score : Option ℚ := none
  quality_category : Option String := none
deriving DecidableEq, Repr

/-- The `stats` dictionary of `batch_process_dataset`. -/
structure BatchStats where
  input_count : Nat
  enhanced_count : Nat
  high_quality_count : Nat
  filtered_out : Nat
deriving DecidableEq, Repr

/-- The enhancement step of a single loop iteration (runs only when
`enhance_quality` is set and the item has text). -/
def enhanceStep (enh : Bool) (it : BatchItem) : BatchItem :=
  match it.text with
  | some t =>
    if enh then
      let r := enhance_amharic_text t
      { it with text := some r.enhanced_text, rag_enhanced := true,
                rag_changes := r.changes_made }
    else it
  | none => it

/-- The full per-item transformation of the loop body: optional
enhancement, then scoring when text is present. -/
def transformItem (enh : Bool) (it : BatchItem) : BatchItem :=
  let it1 := enhanceStep enh it
  match it1.text with
  | some t =>
    let q := calculate_overall_quality_score t
    { it1 with quality_score := some q.overall_score,
               quality_category := some q.quality_category }
  | none => it1

/-- The loop of `batch_process_dataset`, processed sequentially; the
statistics counters are additive across iterations and the output list
preserves iteration order, so the loop is the evident structural
recursion. -/
def processGo (θ : ℚ) (enh : Bool) : List BatchItem → List BatchItem × BatchStats
  | [] => ([], ⟨0, 0, 0, 0⟩)
  | it :: rest =>
    let (out, st) := processGo θ enh rest
    let it1 := enhanceStep enh it
    let enhInc : Nat := if enh && it.text.isSome && !it1.rag_changes.isEmpty then 1 else 0
    match it1.text with
    | some t =>
      let q := calculate_overall_quality_score t
      let it2 : BatchItem :=
        { it1 with quality_score := some q.overall_score,
                   quality_category := some q.quality_category }
      if q.overall_score ≥ θ then
        (it2 :: out, ⟨0, st.enhanced_count + enhInc, st.high_quality_count + 1, st.filtered_out⟩)
      else
        (out, ⟨0, st.enhanced_count + enhInc, st.high_quality_count, st.filtered_out + 1⟩)
    | none => (it1 :: out, ⟨0, st.enhanced_count + enhInc, st.high_quality_count, st.filtered_out⟩)

/-- Embeds `batch_process_dataset(input_data, quality_threshold, enhance_quality)`
restricted to its processed list and statistics (the returned JSON also
shows a 5-element sample, which is presentation only). -/
def batch_process_dataset (input : List BatchItem) (θ : ℚ) (enh : Bool) :
    List BatchItem × BatchStats :=
  let (out, st) := processGo θ enh input
  (out, { st with input_count := input.length })

/-! ### Specification-side definitions -/

/-- Modelled from the spec: the authenticity formula claimed by the
specification, with the penalty `0.05` counted per *occurrence* of each
foreign term (`hay.count(term)`), everything else as in
`assess_authenticity`.  Compared against the source's per-present-term
penalty. -/
def countOccurrencesStr (needle hay : String) : ℕ :=
  match needle.data with
  | [] => hay.data.length + 1
  | n0 :: ns => countOccurSub n0 ns hay.data

/-- Number of expressions from the three authentic-indicator lists contained
in the text. -/
def matchedExpressionCount (text : String) : ℕ :=
  ((religious_expressions ++ cultural_terms ++ traditional_greetings).filter
    (fun e => containsStr e text)).length

/-- Number of distinct foreign terms contained in the text. -/
def foreignPresentCount (text : String) : ℕ :=
  (excessive_foreign_terms.filter (fun t => containsStr t text)).length

/-- Modelled from the spec: per-occurrence foreign-term penalty version of
the authenticity score (claim C5's formula). -/
def assess_authenticity_per_occurrence (text : String) : ℚ :=
  let score : ℚ := (matchedExpressionCount text : ℚ) * (1/10)
  let penalty : ℚ :=
    excessive_foreign_terms.foldl
      (fun acc t => acc + (countOccurrencesStr t text : ℚ) * (1/20)) 0
  min 1 (max 0 (score - penalty) / (11/10))

/-- Modelled from the spec: the category bucketing described by the
specification — inclusive lower bounds 0.8 / 0.6 / 0.4 checked in
descending order. -/
def quality_bucket_of (q : ℚ) : String :=
  if q ≥ 4/5 then "excellent"
  else if q ≥ 3/5 then "good"
  else if q ≥ 2/5 then "fair"
  else "poor"

/-- An ASCII text engineered to make the scorer's weighted sum exactly 0.8:
26 backslash-`n` pairs (numerator-only characters under the buggy ratio)
and 60 digits in 21 words, giving ratio 86/60, length score 1, complexity
1, authenticity 0, hence 0.3·(86/60) + 0.14 + 0.15 + 0.08 = 0.8. -/
def boundaryText : String :=
  "\\n\\n\\n\\n\\n\\n\\n\\n\\n\\n\\n\\n\\n\\n\\n\\n\\n\\n\\n\\n\\n\\n\\n\\n\\n\\n 000 000 000 000 000 000 000 000 000 000 000 000 000 000 000 000 000 000 000 000"

/-- An ASCII text whose weighted sum is 5359/6700 ≈ 0.7999 — inside
[0.7995, 0.8), so the reported (rounded) overall score is 0.8 while the
category is computed from the unrounded sum. -/
def roundGapText : String :=
  "\\n\\n\\n\\n\\n\\n\\n\\n\\n\\n\\n\\n\\n\\n\\n\\n\\n\\n\\n\\n\\n\\n\\n\\n\\n\\n\\n\\n\\n\\n 000 000 000 000 000 000 000 000 000 000 000 000 000 000 000 000 000 000 000 000 000000a"

/-! ### Claims -/

/-- C1: the spec claims `calculate_amharic_character_ratio` computes the
same ratio as `is_amharic_text` — Ethiopic characters over non-space,
non-newline characters.  It does not: on the single Ethiopic character "ሀ"
the scorer's function returns 0 (its regex, with doubled backslashes,
matches no Ethiopic character) while the collector's ratio is 1.  This
contradicts the scorer's own comment and docstring ("Count Amharic
characters (Ethiopian Unicode range U+1200-U+137F)", "Ratio of Amharic
characters (0.0 to 1.0)"), so the code, not the claim, is wrong. -/
theorem scorer_ratio_contradicts_ethiopic_count :
    amharicCharacterRatioFn "ሀ" = 0 ∧ collectorAmharicRatioFn "ሀ" = 1 ∧
    amharicCharacterRatioFn "ሀ" ≠ collectorAmharicRatioFn "ሀ" := by
  decide

/-- The scorer checks for a terminator at the end of `s + ' '`, which ends
in a space, so the check never succeeds. -/
theorem endsTermDollar_concat_space (s : List Char) :
    endsTermDollar (s ++ [' ']) = false := by
  unfold endsTermDollar
  rw [List.getLast?_concat]
  rfl

/-- C2: the spec claims the termination ratio is the fraction of segments
immediately followed by a terminator in the original text, equal to 1 for
fully terminated text.  In the code the ratio is 0 for *every* text: the
split segments contain no terminator and a space is appended before the
`$`-anchored search.  On the fully terminated text "ሰላም።" the code yields
termination ratio 0 (and structure score 0.7·(3/30) = 0.07), where the
claim requires 1. -/
theorem termination_ratio_always_zero :
    (∀ text : String, (evaluate_sentence_structure text).properly_terminated = 0) ∧
    (evaluate_sentence_structure "ሰላም።").properly_terminated = 0 ∧
    (evaluate_sentence_structure "ሰላም።").structure_score = 7/100 := by
  refine ⟨fun text => ?_, by decide, by decide⟩
  unfold evaluate_sentence_structure
  set sentences :=
    ((splitSingleTerm text.data).map pyStripL).filter (fun s => !s.isEmpty) with hs
  by_cases h : sentences.isEmpty
  · simp [h]
  · simp only [h, if_false, Bool.false_eq_true]
    have hnil : sentences.filter (fun s => endsTermDollar (s ++ [' '])) = [] := by
      rw [List.filter_eq_nil_iff]
      intro a _
      simp [endsTermDollar_concat_space]
    rw [hnil]
    simp

/-- C3 counterexample: `clean_amharic_text` is not idempotent.  Removing the
entity `&amp;` from "a &amp; b" leaves the two spaces around it adjacent,
and only a second pass collapses them. -/
theorem clean_not_idempotent_cex :
    clean_amharic_text (clean_amharic_text "a &amp; b") ≠
      clean_amharic_text "a &amp; b" := by
  decide

/-- C4 counterexample: on the empty string `identify_quality_issues` does
not return "no issues" — the terminal-punctuation check fires (there is no
terminator at the end of the empty string) and one punctuation issue is
produced. -/
theorem empty_text_yields_punctuation_issue_cex :
    identify_quality_issues "" ≠ [] := by
  decide

/-- C4 amended: on the empty string every component score is 0, the overall
score is the coherence floor 0.08 with category "poor", enhancement makes
no change — but `identify_quality_issues` returns exactly one issue (the
missing-terminal-punctuation issue at position 0), not none. -/
theorem empty_text_degrades_to_floor :
    amharicCharacterRatioFn "" = 0 ∧
    (evaluate_sentence_structure "").structure_score = 0 ∧
    assess_authenticity "" = 0 ∧
    (evaluate_complexity "").complexity_score = 0 ∧
    (calculate_overall_quality_score "").amharicRatioComp = 0 ∧
    (calculate_overall_quality_score "").sentenceStructureComp = 0 ∧
    (calculate_overall_quality_score "").authenticityComp = 0 ∧
    (calculate_overall_quality_score "").complexityComp = 0 ∧
    (calculate_overall_quality_score "").overall_score = 2/25 ∧
    (calculate_overall_quality_score "").quality_category = "poor" ∧
    identify_quality_issues "" =
      [⟨"punctuation", "Missing sentence-ending punctuation", 0,
        "Add appropriate punctuation (።, !, or ?)"⟩] ∧
    (enhance_amharic_text "").changes_made = [] ∧
    (enhance_amharic_text "").enhanced_text = "" := by
  decide

/-- C5 counterexample: the penalty is 0.05 per foreign *term present*, not
per occurrence.  On "እንቁላል ዶክተር ዶክተር" (one matched cultural term, the
same foreign term twice) the code gives (0.1 − 0.05)/1.1 = 1/22, while the
claimed per-occurrence formula gives (0.1 − 0.10 floored to 0)/1.1 = 0. -/
theorem authenticity_penalty_not_per_occurrence_cex :
    assess_authenticity "እንቁላል ዶክተር ዶክተር" = 1/22 ∧
    assess_authenticity_per_occurrence "እንቁላል ዶክተር ዶክተር" = 0 ∧
    assess_authenticity "እንቁላል ዶክተር ዶክተር" ≠
      assess_authenticity_per_occurrence "እንቁላል ዶክተር ዶክተር" := by
  decide

/-- C6: the spec claims every component score and the overall score lie in
[0, 1].  The regex bug makes the character-ratio component unbounded: on
the 9-character text of four backslash-`n` pairs and a digit, the numerator
counts the four backslashes and the digit while the denominator drops the
pairs, so the ratio is 5.0 and the overall score is 1.727 — the code
contradicts its own docstring "Ratio of Amharic characters (0.0 to 1.0)". -/
theorem score_bounds_violated_by_ratio_bug :
    amharicCharacterRatioFn "\\n\\n\\n\\n0" = 5 ∧
    (calculate_overall_quality_score "\\n\\n\\n\\n0").overall_score = 1727/1000 ∧
    (calculate_overall_quality_score "\\n\\n\\n\\n0").overall_score > 1 := by
  decide

/-- The category field of the scorer's result is the if-chain over the
unrounded weighted sum. -/
theorem quality_category_eq (text : String) :
    (calculate_overall_quality_score text).quality_category =
      quality_bucket_of (weighted_score text) :=
  rfl

/-- C8: the quality category is the inclusive, descending threshold
bucketing (≥0.8 excellent, ≥0.6 good, ≥0.4 fair, else poor) of the
(unrounded) score; at exactly 0.8 the bucket is "excellent" and at 0.79999
it is "good".  `boundaryText` realizes the 0.8 boundary on the code
itself. -/
theorem category_is_inclusive_descending_bucketing :
    (∀ text : String, (calculate_overall_quality_score text).quality_category =
        quality_bucket_of (weighted_score text)) ∧
    quality_bucket_of (4/5) = "excellent" ∧
    quality_bucket_of (79999/100000) = "good" ∧
    weighted_score boundaryText = 4/5 ∧
    (calculate_overall_quality_score boundaryText).quality_category = "excellent" := by
  refine ⟨fun text => quality_category_eq text, by decide, by decide, by decide, by decide⟩

/-- Round-half-to-even sends every rational in [0.7995, 0.8) to 0.8 at
three decimals: the scaled value lies in [799.5, 800), whose floor is 799,
and both the strictly-above-half case and the tie (799 being odd) round
up to 800. -/
theorem roundHalfEven3_of_mem_gap (q : ℚ) (h1 : 7995/10000 ≤ q) (h2 : q < 8/10) :
    roundHalfEven3 q = 4/5 := by
  have hf : ⌊q * 1000⌋ = 799 := by
    rw [Int.floor_eq_iff]
    constructor
    · push_cast
      linarith
    · push_cast
      linarith
  unfold roundHalfEven3 roundHalfEven
  rw [hf]
  split_ifs with ha hb hc
  · exfalso
    push_cast at ha
    linarith
  · norm_num
  · exfalso
    norm_num at hc
  · norm_num

/-- C10: the reported `overall_score` is the weighted sum rounded to three
decimals while the category is bucketed from the unrounded sum, so for any
text whose unrounded sum lies in [0.7995, 0.8) the reported score is 0.8
while the category is "good". -/
theorem overall_rounded_but_category_unrounded :
    (∀ text : String, (calculate_overall_quality_score text).overall_score =
        roundHalfEven3 (weighted_score text)) ∧
    (∀ text : String, 7995/10000 ≤ weighted_score text → weighted_score text < 8/10 →
      (calculate_overall_quality_score text).overall_score = 4/5 ∧
      (calculate_overall_quality_score text).quality_category = "good") := by
  refine ⟨fun _ => rfl, fun text h1 h2 => ⟨?_, ?_⟩⟩
  · show roundHalfEven3 (weighted_score text) = 4/5
    exact roundHalfEven3_of_mem_gap _ h1 h2
  · rw [quality_category_eq]
    unfold quality_bucket_of
    rw [if_neg (by linarith), if_pos (by linarith)]

/-- Witness for C10 at `roundGapText`, whose weighted sum is 5359/6700. -/
theorem overall_rounded_but_category_unrounded_witness :
    (7995/10000 ≤ weighted_score roundGapText ∧ weighted_score roundGapText < 8/10) ∧
    (calculate_overall_quality_score roundGapText).overall_score = 4/5 ∧
    (calculate_overall_quality_score roundGapText).quality_category = "good" :=
  ⟨⟨by decide, by decide⟩,
   overall_rounded_but_category_unrounded.2 roundGapText (by decide) (by decide)⟩

/-- A fold adding `u` per element satisfying `p` computes
`(filtered length) * u`. -/
theorem foldl_add_ite (p : String → Bool) (u : ℚ) :
    ∀ (l : List String) (a : ℚ),
      l.foldl (fun acc e => acc + if p e then u else 0) a
        = a + ((l.filter p).length : ℚ) * u := by
  intro l
  induction l with
  | nil => intro a; simp
  | cons e t ih =>
    intro a
    rw [List.foldl_cons, ih, List.filter_cons]
    by_cases h : p e
    · rw [if_pos h, if_pos h]
      push_cast [List.length_cons]
      ring
    · rw [if_neg h, if_neg h]
      ring

/-- The per-category score loop counts present expressions at 0.1 each. -/
theorem categoryScoreFn_eq (exprs : List String) (text : String) :
    categoryScoreFn exprs text
      = (((exprs.filter (fun e => containsStr e text)).length : ℕ) : ℚ) * (1/10) := by
  unfold categoryScoreFn
  rw [foldl_add_ite]
  ring

/-- The foreign-term loop counts present terms at 0.05 each. -/
theorem foreignPenaltyFn_eq (text : String) :
    foreignPenaltyFn text = ((foreignPresentCount text : ℕ) : ℚ) * (1/20) := by
  unfold foreignPenaltyFn foreignPresentCount
  rw [foldl_add_ite]
  ring

/-- C5 amended: the authenticity score is 0.1 per matched expression minus
0.05 per foreign term *present* (counted once per term, not per
occurrence), floored at 0, divided by the total point mass 1.1, clamped
to [0, 1]. -/
theorem authenticity_penalizes_per_present_term :
    ∀ text : String,
      assess_authenticity text =
        min 1 (max 0 ((matchedExpressionCount text : ℚ) * (1/10)
            - (foreignPresentCount text : ℚ) * (1/20)) / (11/10)) := by
  intro text
  simp only [assess_authenticity]
  rw [categoryScoreFn_eq, categoryScoreFn_eq, categoryScoreFn_eq, foreignPenaltyFn_eq]
  have hw : ((religious_expressions.length : ℚ) * (1/10) +
      (cultural_terms.length : ℚ) * (1/10) +
      (traditional_greetings.length : ℚ) * (1/10)) = 11/10 := by
    norm_num [religious_expressions, cultural_terms, traditional_greetings]
  rw [hw]
  have hmax : max (11/10 : ℚ) 1 = 11/10 := by
    rw [max_eq_left]
    norm_num
  rw [hmax, if_pos (by norm_num : (11/10 : ℚ) > 0)]
  have hcnt : ((matchedExpressionCount text : ℕ) : ℚ) =
      ((religious_expressions.filter (fun e => containsStr e text)).length : ℚ) +
      ((cultural_terms.filter (fun e => containsStr e text)).length : ℚ) +
      ((traditional_greetings.filter (fun e => containsStr e text)).length : ℚ) := by
    unfold matchedExpressionCount
    rw [List.filter_append, List.filter_append, List.length_append, List.length_append]
    push_cast
    ring
  rw [hcnt]
  ring_nf

/-- C9 counterexample: on the spec's example text
"እንደምን አደርክ አንተስ እንዴት ነህ" the phrase completions append question
marks, so no `።` is appended and the enhanced text does not end in `።`. -/
theorem enhancer_example_not_ethiopic_stop_cex :
    (enhance_amharic_text "እንደምን አደርክ አንተስ እንዴት ነህ").enhanced_text.data.getLast?
        = some '?' ∧
    (enhance_amharic_text "እንደምን አደርክ አንተስ እንዴት ነህ").enhanced_text.data.getLast?
        ≠ some '።' := by
  decide

/-- C9 amended: whenever the (already replacement-modified) text still
lacks terminal punctuation and is nonempty after stripping, the enhancer
appends `።` and records exactly one "punctuation" change, whose `original`
is the original unmodified input and whose `enhanced` is the final text —
but on the spec's example text the phrase completions already append
question marks, so the enhanced text ends in `?` (not `።`) while still
recording one change. -/
theorem punctuation_change_carries_original_input :
    (∀ text : String,
      endsTermDollar (pyStripL (apply_authenticity_enhancements text).data) = false →
      pyStripL (apply_authenticity_enhancements text).data ≠ [] →
      (enhance_amharic_text text).enhanced_text =
        ⟨pyStripL (apply_authenticity_enhancements text).data ++ ['።']⟩ ∧
      (enhance_amharic_text text).changes_made.filter (fun c => c.ctype == "punctuation") =
        [⟨"punctuation", "Added sentence-ending punctuation", text,
          ⟨pyStripL (apply_authenticity_enhancements text).data ++ ['።']⟩⟩]) ∧
    (enhance_amharic_text "እንደምን አደርክ አንተስ እንዴት ነህ").enhanced_text =
      "እንደምን አደርክ? አንተስ እንዴት ነህ?" ∧
    1 ≤ (enhance_amharic_text "እንደምን አደርክ አንተስ እንዴት ነህ").changes_made.length := by
  refine ⟨fun text h1 h2 => ?_, by decide, by decide⟩
  have hemp : (pyStripL (apply_authenticity_enhancements text).data).isEmpty = false :=
    List.isEmpty_eq_false.mpr h2
  simp only [enhance_amharic_text, h1, hemp, Bool.not_false, Bool.and_self, if_pos]
  refine ⟨trivial, ?_⟩
  rw [List.filter_append]
  by_cases hc : apply_authenticity_enhancements text ≠ text
  · rw [if_pos hc]
    rfl
  · rw [if_neg hc]
    rfl

/-- Witness for the amended C9 at the input "ሀ": no replacement applies,
the stripped text lacks terminal punctuation, and the theorem yields the
single punctuation change recording "ሀ" and "ሀ።". -/
theorem punctuation_change_carries_original_input_witness :
    (endsTermDollar (pyStripL (apply_authenticity_enhancements "ሀ").data) = false ∧
     pyStripL (apply_authenticity_enhancements "ሀ").data ≠ []) ∧
    (enhance_amharic_text "ሀ").enhanced_text =
      ⟨pyStripL (apply_authenticity_enhancements "ሀ").data ++ ['።']⟩ ∧
    (enhance_amharic_text "ሀ").changes_made.filter (fun c => c.ctype == "punctuation") =
      [⟨"punctuation", "Added sentence-ending punctuation", "ሀ",
        ⟨pyStripL (apply_authenticity_enhancements "ሀ").data ++ ['።']⟩⟩] :=
  ⟨⟨by decide, by decide⟩,
   punctuation_change_carries_original_input.1 "ሀ" (by decide) (by decide)⟩

/-- Enhancement never adds or removes the text field. -/
theorem enhanceStep_text_isSome (enh : Bool) (it : BatchItem) :
    (enhanceStep enh it).text.isSome = it.text.isSome := by
  cases h : it.text with
  | none => simp [enhanceStep, h]
  | some t =>
    simp only [enhanceStep, h]
    split
    · simp
    · simp [h]

/-- The filter predicate that characterizes which (transformed) items the
batch loop keeps: items without text always, items with text iff their
fresh overall score reaches the threshold. -/
def keptPred (θ : ℚ) (it : BatchItem) : Bool :=
  it.text.isNone || decide (it.quality_score.getD 0 ≥ θ)

/-- Loop invariant of `processGo`, by induction over the input: the two
counters partition the items with text, the output length adds the
pass-through items, and the output is exactly the order-preserving filter
of the transformed input. -/
theorem processGo_spec (θ : ℚ) (enh : Bool) :
    ∀ input : List BatchItem,
      (processGo θ enh input).2.high_quality_count + (processGo θ enh input).2.filtered_out
          = (input.filter (fun it => it.text.isSome)).length ∧
      (processGo θ enh input).1.length
          = (processGo θ enh input).2.high_quality_count
            + (input.filter (fun it => it.text.isNone)).length ∧
      (processGo θ enh input).1
          = (input.map (transformItem enh)).filter (keptPred θ) := by
  intro input
  induction input with
  | nil => exact ⟨rfl, rfl, rfl⟩
  | cons it rest ih =>
    rcases hp : processGo θ enh rest with ⟨out, st⟩
    rw [hp] at ih
    obtain ⟨ih1, ih2, ih3⟩ := ih
    dsimp only at ih1 ih2 ih3
    have htr : transformItem enh it =
        (match (enhanceStep enh it).text with
         | some t =>
           let q := calculate_overall_quality_score t
           { enhanceStep enh it with quality_score := some q.overall_score,
                                     quality_category := some q.quality_category }
         | none => enhanceStep enh it) := rfl
    cases ht : (enhanceStep enh it).text with
    | none =>
      have hsome : it.text.isSome = false := by
        rw [← enhanceStep_text_isSome enh it, ht]
        rfl
      have hit : it.text = none := Option.not_isSome_iff_eq_none.mp (by simp [hsome])
      have hnone : it.text.isNone = true := by
        rw [hit]
        rfl
      have htr2 : transformItem enh it = enhanceStep enh it := by
        rw [htr, ht]
      refine ⟨?_, ?_, ?_⟩
      · simp only [processGo, hp, ht, List.filter_cons, hsome]
        exact ih1
      · simp only [processGo, hp, ht, List.filter_cons, hnone, if_pos,
          List.length_cons, ih2]
        omega
      · simp only [processGo, hp, ht, List.map_cons, List.filter_cons, htr2,
          keptPred, Option.isNone_none, Bool.true_or]
        rw [if_pos trivial]
        exact congrArg _ ih3
    | some t =>
      have hsome : it.text.isSome = true := by
        rw [← enhanceStep_text_isSome enh it, ht]
        rfl
      obtain ⟨s, hs⟩ := Option.isSome_iff_exists.mp hsome
      have hnone : it.text.isNone = false := by
        rw [hs]
        rfl
      have htr2 : transformItem enh it =
          { enhanceStep enh it with
            quality_score := some (calculate_overall_quality_score t).overall_score,
            quality_category := some (calculate_overall_quality_score t).quality_category } := by
        rw [htr, ht]
      have hkept : keptPred θ (transformItem enh it) =
          decide ((calculate_overall_quality_score t).overall_score ≥ θ) := by
        rw [htr2]
        simp only [keptPred, ht]
        rfl
      by_cases hq : (calculate_overall_quality_score t).overall_score ≥ θ
      · have hkept2 : keptPred θ (transformItem enh it) = true := by
          rw [hkept]
          exact decide_eq_true hq
        refine ⟨?_, ?_, ?_⟩
        · simp only [processGo, hp, ht, if_pos hq, List.filter_cons, hsome, if_pos,
            List.length_cons]
          omega
        · simp only [processGo, hp, ht, if_pos hq, List.filter_cons, hnone,
            Bool.false_eq_true, if_false, List.length_cons, ih2]
          omega
        · simp only [processGo, hp, ht, if_pos hq]
          rw [List.map_cons, List.filter_cons, hkept2, if_pos rfl, htr2, ih3]
          simp only [ht]
      · have hkept2 : keptPred θ (transformItem enh it) = false := by
          rw [hkept]
          exact decide_eq_false hq
        refine ⟨?_, ?_, ?_⟩
        · simp only [processGo, hp, ht, if_neg hq, List.filter_cons, hsome, if_pos,
            List.length_cons]
          omega
        · simp only [processGo, hp, ht, if_neg hq, List.filter_cons, hnone]
          simp [ih2]
        · simp only [processGo, hp, ht, if_neg hq]
          rw [List.map_cons, List.filter_cons, hkept2, if_neg (by simp), ih3]

/-- C7: batch processing partitions the items with text between
`high_quality_count` and `filtered_out`, outputs exactly the high-quality
items plus the text-less pass-throughs, keeps items in input order (the
output is a filter of the transformed input list), and the threshold is
inclusive: an item whose score exactly equals the threshold (text "" scores
exactly 0.08 = 2/25) is kept, not filtered. -/
theorem batch_process_invariants :
    (∀ (input : List BatchItem) (θ : ℚ) (enh : Bool),
      (batch_process_dataset input θ enh).2.high_quality_count
          + (batch_process_dataset input θ enh).2.filtered_out
        = (input.filter (fun it => it.text.isSome)).length ∧
      (batch_process_dataset input θ enh).1.length
        = (batch_process_dataset input θ enh).2.high_quality_count
          + (input.filter (fun it => it.text.isNone)).length ∧
      (batch_process_dataset input θ enh).1
        = (input.map (transformItem enh)).filter (keptPred θ)) ∧
    (batch_process_dataset [{ text := some "" }] (2/25) true).2.high_quality_count = 1 ∧
    (batch_process_dataset [{ text := some "" }] (2/25) true).2.filtered_out = 0 := by
  refine ⟨fun input θ enh => ?_, by decide, by decide⟩
  have h := processGo_spec θ enh input
  rcases hp : processGo θ enh input with ⟨out, st⟩
  rw [hp] at h
  simpa only [batch_process_dataset, hp] using h

/-! ### Idempotence analysis of `clean_amharic_text` (claim C3) -/

/-- Abbreviation for the C3 lemmas: adjacent characters are never both
whitespace. -/
def noWsPair (x y : Char) : Prop :=
  ¬(pySpaceChar x = true ∧ pySpaceChar y = true)

/-- Head of a `dropWhile` result never satisfies the predicate. -/
theorem dropWhile_head_false (p : Char → Bool) (l : List Char) (c : Char)
    (h : (l.dropWhile p).head? = some c) : p c = false := by
  have hw := List.head?_dropWhile_not p l
  rw [h] at hw
  exact hw

/-- Stripping takes a contiguous part of the list. -/
theorem pyStripL_part (l : List Char) : pyStripL l <:+: l := by
  obtain ⟨t1, ht1⟩ := List.dropWhile_suffix (l := l) pySpaceChar
  obtain ⟨t2, ht2⟩ :=
    List.dropWhile_suffix (l := (l.dropWhile pySpaceChar).reverse) pySpaceChar
  refine ⟨t1, t2.reverse, ?_⟩
  have hD : pyStripL l ++ t2.reverse = l.dropWhile pySpaceChar := by
    have hr := congrArg List.reverse ht2
    rw [List.reverse_append, List.reverse_reverse] at hr
    exact hr
  rw [List.append_assoc, hD, ht1]

/-- A character of the stripped list is a character of the list. -/
theorem mem_pyStripL {c : Char} {l : List Char} (h : c ∈ pyStripL l) : c ∈ l :=
  List.IsInfix.subset (pyStripL_part l) h

/-- The head of a stripped list is not whitespace. -/
theorem pyStripL_head (l : List Char) (c : Char)
    (h : (pyStripL l).head? = some c) : pySpaceChar c = false := by
  unfold pyStripL at h
  rw [List.head?_reverse] at h
  have hne : (l.dropWhile pySpaceChar).reverse.dropWhile pySpaceChar ≠ [] := by
    intro hnil
    rw [hnil] at h
    cases h
  obtain ⟨t, ht⟩ :=
    List.dropWhile_suffix (l := (l.dropWhile pySpaceChar).reverse) pySpaceChar
  have h2 : ((l.dropWhile pySpaceChar).reverse).getLast? = some c := by
    conv_lhs => rw [← ht]
    rw [List.getLast?_append_of_ne_nil _ hne]
    exact h
  rw [List.getLast?_reverse] at h2
  exact dropWhile_head_false _ _ _ h2

/-- The last character of a stripped list is not whitespace. -/
theorem pyStripL_last (l : List Char) (c : Char)
    (h : (pyStripL l).getLast? = some c) : pySpaceChar c = false := by
  unfold pyStripL at h
  rw [List.getLast?_reverse] at h
  exact dropWhile_head_false _ _ _ h

/-- Stripping is the identity when neither end is whitespace. -/
theorem pyStripL_eq_self (l : List Char)
    (h1 : ∀ c, l.head? = some c → pySpaceChar c = false)
    (h2 : ∀ c, l.getLast? = some c → pySpaceChar c = false) :
    pyStripL l = l := by
  have hd : l.dropWhile pySpaceChar = l := by
    cases l with
    | nil => rfl
    | cons a t => exact List.dropWhile_cons_of_neg (by simp [h1 a rfl])
  have hd2 : l.reverse.dropWhile pySpaceChar = l.reverse := by
    cases hr : l.reverse with
    | nil => rfl
    | cons b s =>
      have hb : l.getLast? = some b := by
        rw [List.getLast?_eq_head?_reverse, hr]
        rfl
      exact List.dropWhile_cons_of_neg (by simp [h2 b hb])
  unfold pyStripL
  rw [hd, hd2, List.reverse_reverse]

/-- Stripping is idempotent. -/
theorem pyStripL_idem (l : List Char) : pyStripL (pyStripL l) = pyStripL l :=
  pyStripL_eq_self _ (pyStripL_head l) (pyStripL_last l)

/-- Every character of the collapsed list is either the emitted space or a
non-whitespace character of the original list. -/
theorem collapse_mem :
    ∀ (l : List Char) (b : Bool) (c : Char), c ∈ collapseGo b l →
      c = ' ' ∨ (c ∈ l ∧ pySpaceChar c = false) := by
  intro l
  induction l with
  | nil => intro b c h; cases h
  | cons a t ih =>
    intro b c h
    by_cases hs : pySpaceChar a = true
    · cases b with
      | true =>
        simp only [collapseGo, hs, if_pos, if_true] at h
        rcases ih true c h with he | ⟨hm, hn⟩
        · exact Or.inl he
        · exact Or.inr ⟨List.mem_cons_of_mem a hm, hn⟩
      | false =>
        simp only [collapseGo, hs, if_pos, if_true, Bool.false_eq_true, if_false] at h
        rcases List.mem_cons.mp h with he | h2
        · exact Or.inl he
        · rcases ih true c h2 with he | ⟨hm, hn⟩
          · exact Or.inl he
          · exact Or.inr ⟨List.mem_cons_of_mem a hm, hn⟩
    · simp only [collapseGo, hs, Bool.false_eq_true, if_false] at h
      rcases List.mem_cons.mp h with he | h2
      · subst he
        exact Or.inr ⟨List.mem_cons_self c t, by simpa using hs⟩
      · rcases ih false c h2 with he | ⟨hm, hn⟩
        · exact Or.inl he
        · exact Or.inr ⟨List.mem_cons_of_mem a hm, hn⟩

/-- Just after a space was emitted, the collapsed list continues with a
non-whitespace character (if anything). -/
theorem collapse_head_true :
    ∀ (l : List Char) (c : Char), (collapseGo true l).head? = some c →
      pySpaceChar c = false := by
  intro l
  induction l with
  | nil => intro c h; cases h
  | cons a t ih =>
    intro c h
    by_cases hs : pySpaceChar a = true
    · simp only [collapseGo, hs, if_pos, if_true] at h
      exact ih c h
    · simp only [collapseGo, hs, Bool.false_eq_true, if_false, List.head?_cons,
        Option.some.injEq] at h
      subst h
      simpa using hs

/-- The collapsed list never contains two adjacent whitespace
characters. -/
theorem collapse_chain' :
    ∀ (l : List Char) (b : Bool), List.Chain' noWsPair (collapseGo b l) := by
  intro l
  induction l with
  | nil => intro b; exact List.chain'_nil
  | cons a t ih =>
    intro b
    by_cases hs : pySpaceChar a = true
    · cases b with
      | true =>
        simp only [collapseGo, hs, if_pos, if_true]
        exact ih true
      | false =>
        simp only [collapseGo, hs, if_pos, if_true, Bool.false_eq_true, if_false]
        rw [List.chain'_cons']
        refine ⟨fun y hy => ?_, ih true⟩
        have := collapse_head_true t y hy
        intro hc
        rw [this] at hc
        exact Bool.false_ne_true hc.2
    · simp only [collapseGo, hs, Bool.false_eq_true, if_false]
      rw [List.chain'_cons']
      refine ⟨fun y hy => ?_, ih false⟩
      intro hc
      exact hs hc.1

/-- Collapsing skips a leading non-space identically in both states. -/
theorem collapseGo_true_eq_false (d : Char) (r : List Char)
    (h : pySpaceChar d = false) :
    collapseGo true (d :: r) = collapseGo false (d :: r) := by
  simp [collapseGo, h]

/-- Collapsing is the identity on lists whose whitespace is all `' '` with
no two adjacent. -/
theorem collapseGo_eq_self :
    ∀ l : List Char, (∀ c ∈ l, pySpaceChar c = true → c = ' ') →
      List.Chain' noWsPair l → collapseGo false l = l := by
  intro l
  induction l with
  | nil => intro _ _; rfl
  | cons a t ih =>
    intro hws hch
    have iht : collapseGo false t = t :=
      ih (fun c hc => hws c (List.mem_cons_of_mem a hc)) hch.tail
    by_cases hs : pySpaceChar a = true
    · have ha : a = ' ' := hws a (List.mem_cons_self a t) hs
      simp only [collapseGo, hs, if_pos, if_true, Bool.false_eq_true, if_false]
      rw [ha]
      cases t with
      | nil => rfl
      | cons d r =>
        have hd : pySpaceChar d = false := by
          have hr := (List.chain'_cons'.mp hch).1 d rfl
          by_contra hcon
          exact hr ⟨hs, by simpa using hcon⟩
        rw [collapseGo_true_eq_false d r hd, iht]
    · simp only [collapseGo, hs, Bool.false_eq_true, if_false]
      rw [iht]

/-- A fuelled entity scan over a list without `&` is the identity. -/
theorem removeEntitiesGo_no_amp :
    ∀ (fuel : Nat) (l : List Char), '&' ∉ l → removeEntitiesGo fuel l = l := by
  intro fuel
  induction fuel with
  | zero =>
    intro l _
    cases l <;> rfl
  | succ n ih =>
    intro l h
    cases l with
    | nil => rfl
    | cons c rest =>
      have hc : (c == '&') = false := by
        have hne : c ≠ '&' := fun he => h (he ▸ List.mem_cons_self c rest)
        simp [hne]
      simp only [removeEntitiesGo, hc, Bool.false_eq_true, if_false]
      rw [ih rest (fun hm => h (List.mem_cons_of_mem c hm))]

/-- Entity removal is the identity on strings without `&`. -/
theorem removeEntitiesL_no_amp (l : List Char) (h : '&' ∉ l) :
    removeEntitiesL l = l :=
  removeEntitiesGo_no_amp _ _ h

/-- On inputs without `&` whose characters are whitespace or kept,
`clean_amharic_text` is strip-collapse-strip: the entity removal and the
character filter do nothing. -/
theorem clean_eq_of_safe (x : String) (hamp : '&' ∉ x.data)
    (hkeep : ∀ c ∈ x.data, pySpaceChar c = true ∨ keepCharCollector c = true) :
    clean_amharic_text x = ⟨pyStripL (collapseGo false (pyStripL x.data))⟩ := by
  by_cases hx : x = ""
  · subst hx
    rfl
  · unfold clean_amharic_text
    rw [if_neg hx]
    show String.mk (pyStripL (List.filter keepCharCollector
      (removeEntitiesL (collapseGo false (pyStripL x.data))))) = _
    have hampt : '&' ∉ collapseGo false (pyStripL x.data) := by
      intro hm
      rcases collapse_mem _ _ _ hm with he | ⟨hmem, _⟩
      · cases he
      · exact hamp (mem_pyStripL hmem)
    have hkeepall : ∀ c ∈ collapseGo false (pyStripL x.data),
        keepCharCollector c = true := by
      intro c hm
      rcases collapse_mem _ _ _ hm with he | ⟨hmem, hns⟩
      · subst he
        rfl
      · rcases hkeep c (mem_pyStripL hmem) with hws | hk
        · rw [hws] at hns
          cases hns
        · exact hk
    rw [removeEntitiesL_no_amp _ hampt, List.filter_eq_self.mpr hkeepall]

/-- C3 amended: `clean_amharic_text` is idempotent on inputs that contain no
`&` and no character outside the kept ranges (each character whitespace, or
Ethiopic / basic ASCII / Latin-1); in general idempotence fails, because
removing an entity (or a filtered-out character) between two spaces leaves
a double space that only a second pass collapses. -/
theorem clean_idempotent_on_kept_inputs :
    ∀ x : String, '&' ∉ x.data →
      (∀ c ∈ x.data, pySpaceChar c = true ∨ keepCharCollector c = true) →
      clean_amharic_text (clean_amharic_text x) = clean_amharic_text x := by
  intro x hamp hkeep
  rw [clean_eq_of_safe x hamp hkeep]
  have hy_mem : ∀ c ∈ pyStripL (collapseGo false (pyStripL x.data)),
      c = ' ' ∨ (c ∈ pyStripL x.data ∧ pySpaceChar c = false) :=
    fun c hc => collapse_mem _ _ _ (mem_pyStripL hc)
  have hampy : '&' ∉ pyStripL (collapseGo false (pyStripL x.data)) := by
    intro hm
    rcases hy_mem _ hm with he | ⟨hmem, _⟩
    · cases he
    · exact hamp (mem_pyStripL hmem)
  have hkeepy : ∀ c ∈ (String.mk (pyStripL (collapseGo false (pyStripL x.data)))).data,
      pySpaceChar c = true ∨ keepCharCollector c = true := by
    intro c hm
    rcases hy_mem _ hm with he | ⟨hmem, _⟩
    · subst he
      exact Or.inl rfl
    · rcases hkeep c (mem_pyStripL hmem) with hws | hk
      · exact Or.inl hws
      · exact Or.inr hk
  rw [clean_eq_of_safe (String.mk (pyStripL (collapseGo false (pyStripL x.data))))
    hampy hkeepy]
  show String.mk (pyStripL (collapseGo false
      (pyStripL (pyStripL (collapseGo false (pyStripL x.data)))))) = _
  rw [pyStripL_idem]
  have hC : collapseGo false (pyStripL (collapseGo false (pyStripL x.data)))
      = pyStripL (collapseGo false (pyStripL x.data)) := by
    apply collapseGo_eq_self
    · intro c hc hwc
      rcases hy_mem _ hc with he | ⟨_, hns⟩
      · exact he
      · rw [hwc] at hns
        cases hns
    · exact List.Chain'.infix (collapse_chain' (pyStripL x.data) false)
        (pyStripL_part (collapseGo false (pyStripL x.data)))
  rw [hC, pyStripL_idem]

/-- Witness for the amended C3 at the double-spaced input "a  b". -/
theorem clean_idempotent_on_kept_inputs_witness :
    ('&' ∉ ("a  b" : String).data ∧
      (∀ c ∈ ("a  b" : String).data,
        pySpaceChar c = true ∨ keepCharCollector c = true)) ∧
    clean_amharic_text (clean_amharic_text "a  b") = clean_amharic_text "a  b" :=
  ⟨⟨by decide, by decide⟩,
   clean_idempotent_on_kept_inputs "a  b" (by decide) (by decide)⟩

end AmharicDataset
